import Mathlib

/-!
Shallow embedding of the `defeat` crate (src/backtrace.rs, src/traits.rs).

Rust strings are modeled as `List Char`; instruction pointers (`*mut c_void`)
as `Int`.  The external collaborators (the demangler of `backtrace_support`,
the symbol resolver and the environment) are not part of the repository and
are passed in as explicit function parameters (`dem`, `resolve`, `env`);
every definition below otherwise follows the corresponding Rust item.
-/

namespace Defeat

/-- Position `i` of `s` carries the two-character separator `::`
(the separator of Rust's `rsplitn(2, "::")` in `SymbolName::demangled`). -/
def isSepAt (s : List Char) (i : Nat) : Bool :=
  decide ((s.drop i).take 2 = [':', ':'])

/-- Index of the rightmost occurrence of `::` in `s`, the split point of
`sym.rsplitn(2, "::")` in `SymbolName::demangled` (backtrace.rs line 55). -/
def findLastSep : List Char → Option Nat
  | [] => none
  | c :: rest =>
    match findLastSep rest with
    | some i => some (i + 1)
    | none => if c = ':' ∧ rest.head? = some ':' then some 0 else none

/-- The hash-marker chopping of `SymbolName::demangled`
(backtrace.rs lines 52-67): the segment after the last `::` (the whole
string when no `::` occurs) is dropped, together with the `::`, when it is
exactly 17 characters long and starts with `h`; `sym.truncate` keeps the
prefix before the separator (the empty string when there is no separator,
because `iter.next()` yields `None` and `unwrap_or("")` has length 0). -/
def rustDemangleStrip (sym : List Char) : List Char :=
  match findLastSep sym with
  | some i =>
    if (sym.drop (i + 2)).length = 17 ∧ (sym.drop (i + 2)).head? = some 'h' then
      sym.take i
    else
      sym
  | none =>
    if sym.length = 17 ∧ sym.head? = some 'h' then [] else sym

/-- Embeds `SymbolName` (backtrace.rs lines 12-17): raw bytes plus the
`UnsafeCell<Option<String>>` cache of the demangled form (field `demangled`
in the source, renamed `demangledCell` here because the method of the same
name is also modeled). -/
structure SymbolName where
  bytes : List Char
  demangledCell : Option (List Char)
deriving DecidableEq

/-- Embeds `SymbolName::new` (backtrace.rs lines 24-30): cache starts out empty. -/
def SymbolName.new (bytes : List Char) : SymbolName :=
  ⟨bytes, none⟩

/-- Embeds `SymbolName::demangled` (backtrace.rs lines 45-77).  `feature` is the
`backtrace` cargo feature; `dem` is the external demangler
`backtrace_support::SymbolName::new(..).to_string()`.  Returns the updated
cell state together with the returned value. -/
def SymbolName.demangled (feature : Bool) (dem : List Char → List Char)
    (sn : SymbolName) : SymbolName × Option (List Char) :=
  if feature then
    match sn.demangledCell with
    | some d => (sn, some d)
    | none =>
      let d := rustDemangleStrip (dem sn.bytes)
      (⟨sn.bytes, some d⟩, some d)
  else
    (sn, none)

/-- Embeds `Symbol` (backtrace.rs lines 104-110). -/
structure Symbol where
  name : Option (List Char)
  addr : Option Int
  filename : Option (List Char)
  lineno : Option Nat
deriving DecidableEq

/-- Embeds `Symbol::is_backtrace_internal` (backtrace.rs lines 134-153), with the
`backtrace` feature enabled (the only configuration in which it is called,
since `trimmed`'s loop is feature-gated).  In the `List Char` model
`as_str` always succeeds. -/
def Symbol.is_backtrace_internal (dem : List Char → List Char)
    (s : Symbol) : Bool :=
  match s.name with
  | none => false
  | some raw =>
    if (String.toList "__ZN6defeat").isPrefixOf raw
        || (String.toList "defeat::").isPrefixOf raw then
      true
    else
      match ((SymbolName.new raw).demangled true dem).2 with
      | some d => (String.toList "defeat::").isPrefixOf d
      | none => false

/-- Embeds `Symbol::is_end_of_user_code` (backtrace.rs lines 156-177), with the
`backtrace` feature enabled. -/
def Symbol.is_end_of_user_code (dem : List Char → List Char)
    (s : Symbol) : Bool :=
  match s.name with
  | none => false
  | some raw =>
    if (String.toList "__ZN3std2rt10lang_start").isPrefixOf raw
        || (String.toList "std::rt::lang_start::").isPrefixOf raw then
      true
    else
      match ((SymbolName.new raw).demangled true dem).2 with
      | some d => (String.toList "std::rt::lang_start::").isPrefixOf d
      | none => false

/-- Embeds `CapturePurpose` (backtrace.rs lines 181-186). -/
inductive CapturePurpose
  | Panic
  | Error
deriving DecidableEq

/-- Embeds `AddrHint` (backtrace.rs lines 190-195). -/
inductive AddrHint
  | Precise
  | Return
deriving DecidableEq

/-- Embeds `Frame` (backtrace.rs lines 198-203): instruction pointer, hint, and the
`UnsafeCell<Option<Vec<Symbol>>>` resolution cache. -/
structure Frame where
  ip : Int
  hint : AddrHint
  resolved : Option (List Symbol)
deriving DecidableEq

/-- Embeds `Frame::new` (backtrace.rs lines 221-228). -/
def Frame.new (ip : Int) (addr_hint : AddrHint) : Frame :=
  ⟨ip, addr_hint, none⟩

/-- Embeds `Frame::new_resolved` (backtrace.rs lines 232-238). -/
def Frame.new_resolved (ip : Int) (addr_hint : AddrHint)
    (symbols : List Symbol) : Frame :=
  ⟨ip, addr_hint, some symbols⟩

/-- Embeds `Frame::addr_hint` (backtrace.rs lines 246-248). -/
def Frame.addr_hint (f : Frame) : AddrHint :=
  f.hint

/-- Embeds `Frame::call_ip` (backtrace.rs lines 254-262): a Return hint unwinds
back by one addressing unit (`self.ip.offset(-1)` on a byte-sized pointee),
a Precise hint is the identity. -/
def Frame.call_ip (f : Frame) : Int :=
  match f.hint with
  | AddrHint.Precise => f.ip
  | AddrHint.Return => f.ip - 1

/-- Embeds `Frame::symbols` (backtrace.rs lines 268-283) with the `backtrace`
feature: resolve at `call_ip` on first access, cached thereafter.
`resolve` is the external `backtrace_support::resolve` wrapper
(`resolve_frame`, lines 206-217). -/
def Frame.symbols (resolve : Int → List Symbol) (f : Frame) : List Symbol :=
  match f.resolved with
  | some syms => syms
  | none => resolve f.call_ip

/-- Embeds `Frame::take_symbols` (backtrace.rs lines 286-289): same value as
`symbols` in the pure model. -/
def Frame.take_symbols (resolve : Int → List Symbol)
    (f : Frame) : List Symbol :=
  f.symbols resolve

/-- Embeds `BacktraceRepr` (backtrace.rs lines 292-298), `backtrace` feature on. -/
inductive BacktraceRepr
  | Empty
  | Frames (frames : List Frame)
deriving DecidableEq

/-- Embeds `Backtrace` (backtrace.rs lines 300-303). -/
structure Backtrace where
  repr : BacktraceRepr
deriving DecidableEq

/-- Embeds `Backtrace::empty` / `Default` (backtrace.rs lines 307-309, 492-498). -/
def Backtrace.empty : Backtrace :=
  ⟨BacktraceRepr.Empty⟩

/-- Embeds `Backtrace::is_empty` (backtrace.rs lines 361-367). -/
def Backtrace.is_empty (bt : Backtrace) : Bool :=
  match bt.repr with
  | BacktraceRepr.Empty => true
  | BacktraceRepr.Frames frames => frames.isEmpty

/-- The environment variable consulted for each purpose
(backtrace.rs lines 339-342). -/
def purposeVarName : CapturePurpose → String
  | CapturePurpose.Panic => "RUST_PANIC_BACKTRACE"
  | CapturePurpose.Error => "RUST_ERROR_BACKTRACE"

/-- Embeds `Backtrace::conditional_capture` (backtrace.rs lines 338-358).
`env` models `std::env::var(..).ok()`; `cap` is the value of
`Backtrace::capture()` (which depends on the feature flag and the external
stack walker).  The two `match` statements with early returns of the source
are rendered as the equivalent conditional chain. -/
def Backtrace.conditional_capture (env : String → Option String)
    (cap : Option Backtrace) (purpose : CapturePurpose) : Option Backtrace :=
  if env (purposeVarName purpose) = some "1"
      ∨ env (purposeVarName purpose) = some "full" then
    cap
  else if env (purposeVarName purpose) = some "0" then
    none
  else if env "RUST_BACKTRACE" = some "1"
      ∨ env "RUST_BACKTRACE" = some "full" then
    cap
  else
    none

/-- The trimming state machine's states (backtrace.rs lines 383-387). -/
inductive TrimState
  | BeforeBacktraceInternal
  | FoundBacktraceInternal
  | InStack
deriving DecidableEq

/-- One element `(ip, addr_hint, symbol)` of the flattened tuple stream
built in `Backtrace::trimmed` (backtrace.rs lines 390-396). -/
structure RawTuple where
  ip : Int
  hint : AddrHint
  sym : Symbol
deriving DecidableEq

/-- The `pending_frame` accumulator of `Backtrace::trimmed`
(backtrace.rs line 398). -/
structure PendingFrame where
  ip : Int
  hint : AddrHint
  syms : List Symbol
deriving DecidableEq

/-- The post-loop flush of `pending_frame` (backtrace.rs lines 440-444):
the pending frame's own ip and hint are used, and it is emitted only when
its symbol list is non-empty. -/
def flushPending : Option PendingFrame → List Frame
  | none => []
  | some p => if p.syms.isEmpty then [] else [Frame.new_resolved p.ip p.hint p.syms]

/-- The grouping `match pending_frame` step of `Backtrace::trimmed`
(backtrace.rs lines 422-437), applied to one retained tuple `t`.  Note that
in the flushing arm (source lines 431-436) the emitted `Frame` is built
from the loop variables `ip, addr_hint` — the current tuple's values — while
the pending frame's own ip and hint are discarded by the `Some((_, _, ..))`
pattern; only its symbol list is carried over. -/
def groupStep (pending : Option PendingFrame) (rv : List Frame)
    (t : RawTuple) : Option PendingFrame × List Frame :=
  match pending with
  | none => (some ⟨t.ip, t.hint, [t.sym]⟩, rv)
  | some p =>
    if p.ip = t.ip ∧ p.hint = t.hint then
      (some ⟨p.ip, p.hint, p.syms ++ [t.sym]⟩, rv)
    else
      (some ⟨t.ip, t.hint, [t.sym]⟩,
        rv ++ (if p.syms.isEmpty then [] else [Frame.new_resolved t.ip t.hint p.syms]))

/-- The `for` loop of `Backtrace::trimmed` (backtrace.rs lines 401-444),
including the final flush: state machine dispatch, then grouping for the
retained tuples; the `break` on the end-of-user-code symbol jumps straight
to the final flush. -/
def trimLoop (dem : List Char → List Char) :
    TrimState → Option PendingFrame → List Frame → List RawTuple → List Frame
  | _, pending, rv, [] => rv ++ flushPending pending
  | TrimState.BeforeBacktraceInternal, pending, rv, t :: rest =>
    if t.sym.is_backtrace_internal dem then
      trimLoop dem TrimState.FoundBacktraceInternal pending rv rest
    else
      trimLoop dem TrimState.BeforeBacktraceInternal pending rv rest
  | TrimState.FoundBacktraceInternal, pending, rv, t :: rest =>
    if t.sym.is_backtrace_internal dem then
      trimLoop dem TrimState.FoundBacktraceInternal pending rv rest
    else
      trimLoop dem TrimState.InStack (groupStep pending rv t).1
        (groupStep pending rv t).2 rest
  | TrimState.InStack, pending, rv, t :: rest =>
    if t.sym.is_end_of_user_code dem then
      rv ++ flushPending pending
    else
      trimLoop dem TrimState.InStack (groupStep pending rv t).1
        (groupStep pending rv t).2 rest

/-- Embeds `Backtrace::trimmed` (backtrace.rs lines 375-455) with the `backtrace`
feature: the Empty representation is returned unchanged; otherwise the
frames are flattened into `(ip, addr_hint, symbol)` tuples and fed through
the state-machine/grouping loop. -/
def Backtrace.trimmed (dem : List Char → List Char)
    (resolve : Int → List Symbol) (bt : Backtrace) : Backtrace :=
  match bt.repr with
  | BacktraceRepr.Empty => bt
  | BacktraceRepr.Frames frames =>
    let tuples := frames.flatMap fun f =>
      (f.take_symbols resolve).map fun s => RawTuple.mk f.ip f.addr_hint s
    ⟨BacktraceRepr.Frames
      (trimLoop dem TrimState.BeforeBacktraceInternal none [] tuples)⟩

/-- Embeds `std::any::TypeId` (traits.rs line 1): a process-unique type identity
token, modeled as a natural number. -/
structure TypeId where
  token : Nat
deriving DecidableEq

/-- A value behind the type-erased `dyn Error` trait object
(traits.rs lines 46-76): the concrete type's identity token together with
the stored value of that type, drawn from a family `F` of payload types
indexed by token.  The soundness precondition of §4.4 — the token always
corresponds to the value's true concrete type — is the dependency of
`val`'s type on `tid`. -/
structure DynError (F : TypeId → Type) where
  tid : TypeId
  val : F tid

/-- The default `Error::type_id` (traits.rs lines 26-31):
`TypeId::of::<Self>()`, the trait object's own token. -/
def DynError.type_id {F : TypeId → Type} (e : DynError F) : TypeId :=
  e.tid

/-- Embeds `<dyn Error>::is::<T>` (traits.rs lines 49-53): compare `TypeId::of::<T>`
(the argument `t`) with `self.type_id()`. -/
def DynError.is {F : TypeId → Type} (e : DynError F) (t : TypeId) : Bool :=
  t == e.type_id

/-- Embeds `<dyn Error>::downcast_ref::<T>` (traits.rs lines 58-64): when the token
matches, reinterpret the stored value at type `F t` (the raw pointer cast of
the source is the transport along the token equality); otherwise `None`. -/
def DynError.downcast_ref {F : TypeId → Type} (e : DynError F)
    (t : TypeId) : Option (F t) :=
  if h : t = e.tid then some (cast (congrArg F h).symm e.val) else none

/-- Embeds `<dyn Error>::downcast_mut::<T>` (traits.rs lines 69-75): identical
token check and reinterpretation, through a mutable reference in the
source. -/
def DynError.downcast_mut {F : TypeId → Type} (e : DynError F)
    (t : TypeId) : Option (F t) :=
  if h : t = e.tid then some (cast (congrArg F h).symm e.val) else none

/-- An implementer of the `Error` trait's origin methods
(traits.rs lines 8-17), restricted to the two origin capabilities.  Field
defaults are the trait's provided method bodies: `sync_origin` defaults to
`None`, and `origin` defaults to `self.sync_origin().map(|x| &*x as &_)` —
forwarding the thread-safe origin through a capability-widening coercion
that is the identity on the referred-to error value. -/
structure ErrorImpl (ε : Type) where
  sync_origin : ε → Option ε := fun _ => none
  origin : ε → Option ε := fun e => (sync_origin e).map fun x => x

/-- The blanket `impl<T: error::Error> Error for T {}` (traits.rs line 118):
both origin methods keep their defaults. -/
def blanketErrorImpl (ε : Type) : ErrorImpl ε :=
  {}

/-! Claim-side (spec-side) predicates, kept clearly apart from the
embedding: they formalize wording of the specification, to be compared
with the behaviour of the definitions above. -/

/-- Modelled from the spec wording of C4: the text "ends in `::` followed
by exactly 17 characters whose first character is `h`". -/
def specEndsInSepHash17 (s : List Char) : Bool :=
  decide (19 ≤ s.length)
    && decide ((s.drop (s.length - 19)).take 2 = [':', ':'])
    && decide ((s.drop (s.length - 17)).head? = some 'h')

/-- Modelled from the spec wording of C5: the text "contains no `::`
separator at all". -/
def noSepIn : List Char → Bool
  | [] => true
  | c :: rest =>
    if c = ':' ∧ rest.head? = some ':' then false else noSepIn rest

/-! Concrete sample data used by witnesses, counterexamples and the
code-bug evaluations. -/

/-- A symbol classified library-internal (raw name begins `defeat::`). -/
def symInternal1 : Symbol :=
  ⟨some (String.toList "defeat::Backtrace::capture"), none, none, none⟩

/-- A second library-internal symbol. -/
def symInternal2 : Symbol :=
  ⟨some (String.toList "defeat::conditional_capture"), none, none, none⟩

/-- A plain user-code symbol. -/
def symUserA : Symbol :=
  ⟨some (String.toList "user_a"), none, none, none⟩

/-- A second plain user-code symbol. -/
def symUserB : Symbol :=
  ⟨some (String.toList "user_b"), none, none, none⟩

/-- The runtime stack-unwind entry symbol (raw name begins
`std::rt::lang_start::`). -/
def symRuntimeStart : Symbol :=
  ⟨some (String.toList "std::rt::lang_start::imp"), none, none, none⟩

/-- A symbol below the runtime entry. -/
def symRuntimeOther : Symbol :=
  ⟨some (String.toList "rt_other"), none, none, none⟩

/-- The synthetic captured trace of C2: six resolved frames whose flattened
tuple stream is `[internal1, internal2, user_a, user_b, runtime_start,
runtime_other]`, with pairwise distinct instruction pointers. -/
def sixTupleBacktrace : Backtrace :=
  ⟨BacktraceRepr.Frames
    [ Frame.new_resolved 10 AddrHint.Return [symInternal1]
    , Frame.new_resolved 11 AddrHint.Return [symInternal2]
    , Frame.new_resolved 12 AddrHint.Return [symUserA]
    , Frame.new_resolved 13 AddrHint.Return [symUserB]
    , Frame.new_resolved 14 AddrHint.Return [symRuntimeStart]
    , Frame.new_resolved 15 AddrHint.Return [symRuntimeOther] ]⟩

/-- A 17-character symbol text starting with `h` and containing no `::`. -/
def hashOnlyText : List Char :=
  String.toList "h0123456789abcdef"

/-- A demangled text whose last `::`-separated segment is a 17-character
hash marker. -/
def hashSuffixText : List Char :=
  String.toList "ab::h0123456789abcdef"

/-- A demangled text whose last `::`-separated segment has 16 characters. -/
def shortSuffixText : List Char :=
  String.toList "ab::h0123456789abcde"

/-- An environment in which only the panic-specific flag is set, to `1`. -/
def envPanicOn : String → Option String :=
  fun v => if v = "RUST_PANIC_BACKTRACE" then some "1" else none

/-! Helper lemmas: `findLastSep` really finds the rightmost `::`. -/

theorem isSepAt_zero_cons (c : Char) (rest : List Char) :
    isSepAt (c :: rest) 0 = true ↔ (c = ':' ∧ rest.head? = some ':') := by
  cases rest <;> simp [isSepAt]

theorem isSepAt_succ_cons (c : Char) (rest : List Char) (j : Nat) :
    isSepAt (c :: rest) (j + 1) = isSepAt rest j := by
  simp [isSepAt]

theorem findLastSep_none_sep :
    ∀ (s : List Char), findLastSep s = none → ∀ j, isSepAt s j = false := by
  intro s
  induction s with
  | nil => intro _ j; simp [isSepAt]
  | cons c rest ih =>
    intro h j
    cases hr : findLastSep rest with
    | some k => simp [findLastSep, hr] at h
    | none =>
      simp only [findLastSep, hr] at h
      by_cases hc : c = ':' ∧ rest.head? = some ':'
      · rw [if_pos hc] at h; simp at h
      · cases j with
        | zero =>
          rw [Bool.eq_false_iff]
          intro habs
          exact hc ((isSepAt_zero_cons c rest).mp habs)
        | succ j => rw [isSepAt_succ_cons]; exact ih hr j

theorem findLastSep_sep :
    ∀ (s : List Char) (i : Nat), findLastSep s = some i → isSepAt s i = true := by
  intro s
  induction s with
  | nil => intro i h; simp [findLastSep] at h
  | cons c rest ih =>
    intro i h
    cases hr : findLastSep rest with
    | some k =>
      simp only [findLastSep, hr, Option.some.injEq] at h
      subst h
      rw [isSepAt_succ_cons]
      exact ih k hr
    | none =>
      simp only [findLastSep, hr] at h
      by_cases hc : c = ':' ∧ rest.head? = some ':'
      · rw [if_pos hc] at h
        simp only [Option.some.injEq] at h
        subst h
        exact (isSepAt_zero_cons c rest).mpr hc
      · rw [if_neg hc] at h; simp at h

theorem findLastSep_last :
    ∀ (s : List Char) (i : Nat), findLastSep s = some i →
      ∀ j, i < j → isSepAt s j = false := by
  intro s
  induction s with
  | nil => intro i h; simp [findLastSep] at h
  | cons c rest ih =>
    intro i h j hij
    cases hr : findLastSep rest with
    | some k =>
      simp only [findLastSep, hr, Option.some.injEq] at h
      subst h
      cases j with
      | zero => exact absurd hij (by omega)
      | succ j =>
        rw [isSepAt_succ_cons]
        exact ih k hr j (by omega)
    | none =>
      simp only [findLastSep, hr] at h
      by_cases hc : c = ':' ∧ rest.head? = some ':'
      · rw [if_pos hc] at h
        simp only [Option.some.injEq] at h
        subst h
        cases j with
        | zero => exact absurd hij (by omega)
        | succ j =>
          rw [isSepAt_succ_cons]
          exact findLastSep_none_sep rest hr j
      · rw [if_neg hc] at h; simp at h

theorem noSepIn_findLastSep :
    ∀ (s : List Char), noSepIn s = true → findLastSep s = none := by
  intro s
  induction s with
  | nil => intro _; rfl
  | cons c rest ih =>
    intro h
    simp only [noSepIn] at h
    by_cases hc : c = ':' ∧ rest.head? = some ':'
    · rw [if_pos hc] at h; simp at h
    · rw [if_neg hc] at h
      simp only [findLastSep, ih h]
      rw [if_neg hc]

/-! The claims. -/

/-- Claim C7: for every Frame with raw instruction pointer `A`, `call_ip()`
equals `A - 1` (one addressing unit back) when the address hint is Return,
and equals `A` unchanged when the hint is Precise. -/
theorem call_ip_adjustment (f : Frame) :
    (f.hint = AddrHint.Return → f.call_ip = f.ip - 1) ∧
    (f.hint = AddrHint.Precise → f.call_ip = f.ip) := by
  constructor <;> intro h <;> simp [Frame.call_ip, h]

/-- Witness for `call_ip_adjustment` at concrete frames with ip 5. -/
theorem call_ip_adjustment_witness :
    (Frame.new 5 AddrHint.Return).call_ip = 4 ∧
    (Frame.new 5 AddrHint.Precise).call_ip = 5 := by
  constructor
  · exact ((call_ip_adjustment (Frame.new 5 AddrHint.Return)).1 rfl).trans (by decide)
  · exact (call_ip_adjustment (Frame.new 5 AddrHint.Precise)).2 rfl

/-- Claim C10: trimming a Backtrace in the explicit Empty state returns it
unchanged for every demangler and every resolver (so no symbol resolution
is consulted), and the result still reports `is_empty`. -/
theorem trimmed_empty_identity :
    ∀ (dem : List Char → List Char) (resolve : Int → List Symbol),
      Backtrace.trimmed dem resolve Backtrace.empty = Backtrace.empty ∧
      (Backtrace.trimmed dem resolve Backtrace.empty).is_empty = true := by
  intro dem resolve
  exact ⟨rfl, rfl⟩

/-- Claim C9: for every implementer of the Error trait that supplies
`sync_origin` and keeps the trait's provided default `origin` (the
repository's only impl, the blanket one for `std` errors, keeps both
defaults), `sync_origin()` returning `Some e` implies `origin()` returns
`Some` of the same error value `e`. -/
theorem sync_origin_implies_origin :
    ∀ (ε : Type) (so : ε → Option ε) (e x : ε),
      ({ sync_origin := so } : ErrorImpl ε).sync_origin e = some x →
      ({ sync_origin := so } : ErrorImpl ε).origin e = some x := by
  intro ε so e x h
  show (so e).map (fun x => x) = some x
  rw [show so e = some x from h]
  rfl

/-- Witness for `sync_origin_implies_origin` over `Nat`-indexed errors. -/
theorem sync_origin_implies_origin_witness :
    ({ sync_origin := fun _ => some 0 } : ErrorImpl Nat).origin 1 = some 0 :=
  sync_origin_implies_origin Nat (fun _ => some 0) 1 0 rfl

/-- Claim C8: `is` holds exactly when the trait object's type-identity
token equals the target token; `downcast_ref` and `downcast_mut` return
`some` exactly when `is` holds, and on a token match `downcast_ref`
returns the stored value itself; for two distinct concrete types the
matching check succeeds, the cross check fails and the cross downcast is
`none`. -/
theorem error_downcast_contract :
    ∀ (F : TypeId → Type) (e : DynError F) (t : TypeId),
      (e.is t = true ↔ t = e.type_id) ∧
      ((e.downcast_ref t).isSome = true ↔ e.is t = true) ∧
      ((e.downcast_mut t).isSome = true ↔ e.is t = true) ∧
      e.downcast_ref e.tid = some e.val ∧
      (∀ (x y : TypeId) (vx : F x) (vy : F y), x ≠ y →
        (DynError.mk x vx).is x = true ∧
        (DynError.mk y vy).is x = false ∧
        (DynError.mk x vx).downcast_ref y = none) := by
  intro F e t
  refine ⟨?_, ?_, ?_, ?_, ?_⟩
  · simp [DynError.is, DynError.type_id]
  · by_cases h : t = e.tid
    · simp [DynError.downcast_ref, DynError.is, DynError.type_id, h]
    · simp [DynError.downcast_ref, DynError.is, DynError.type_id, h]
  · by_cases h : t = e.tid
    · simp [DynError.downcast_mut, DynError.is, DynError.type_id, h]
    · simp [DynError.downcast_mut, DynError.is, DynError.type_id, h]
  · simp [DynError.downcast_ref]
  · intro x y vx vy hxy
    refine ⟨?_, ?_, ?_⟩
    · simp [DynError.is, DynError.type_id]
    · simp [DynError.is, DynError.type_id]
      exact hxy
    · exact dif_neg fun habs => hxy habs.symm

/-- Witness for `error_downcast_contract` with tokens 0 and 1. -/
theorem error_downcast_contract_witness :
    (⟨⟨0⟩, 7⟩ : DynError fun _ => Nat).is ⟨0⟩ = true ∧
    (⟨⟨1⟩, 8⟩ : DynError fun _ => Nat).is ⟨0⟩ = false ∧
    (⟨⟨0⟩, 7⟩ : DynError fun _ => Nat).downcast_ref ⟨1⟩ = none :=
  (error_downcast_contract (fun _ => Nat) ⟨⟨0⟩, 7⟩ ⟨0⟩).2.2.2.2
    ⟨0⟩ ⟨1⟩ 7 8 (by decide)

/-- Claim C6: `conditional_capture` applies a two-tier precedence.  The
purpose-specific flag set to `1` or `full` forces capture and set to `0`
forces `none` without consulting anything else; otherwise the general flag
`RUST_BACKTRACE` set to `1` or `full` captures; in every other case the
result is `none`. -/
theorem conditional_capture_precedence
    (env : String → Option String) (cap : Option Backtrace)
    (purpose : CapturePurpose) :
    (env (purposeVarName purpose) = some "1" ∨
        env (purposeVarName purpose) = some "full" →
      Backtrace.conditional_capture env cap purpose = cap) ∧
    (env (purposeVarName purpose) = some "0" →
      Backtrace.conditional_capture env cap purpose = none) ∧
    (¬(env (purposeVarName purpose) = some "1" ∨
        env (purposeVarName purpose) = some "full") →
      env (purposeVarName purpose) ≠ some "0" →
      (env "RUST_BACKTRACE" = some "1" ∨ env "RUST_BACKTRACE" = some "full") →
      Backtrace.conditional_capture env cap purpose = cap) ∧
    (¬(env (purposeVarName purpose) = some "1" ∨
        env (purposeVarName purpose) = some "full") →
      env (purposeVarName purpose) ≠ some "0" →
      ¬(env "RUST_BACKTRACE" = some "1" ∨ env "RUST_BACKTRACE" = some "full") →
      Backtrace.conditional_capture env cap purpose = none) := by
  refine ⟨fun h => ?_, fun h => ?_, fun h1 h2 h3 => ?_, fun h1 h2 h3 => ?_⟩
  · simp only [Backtrace.conditional_capture]
    rw [if_pos h]
  · have hne : ¬(env (purposeVarName purpose) = some "1" ∨
        env (purposeVarName purpose) = some "full") := by
      rw [h]; decide
    simp only [Backtrace.conditional_capture]
    rw [if_neg hne, if_pos h]
  · simp only [Backtrace.conditional_capture]
    rw [if_neg h1, if_neg h2, if_pos h3]
  · simp only [Backtrace.conditional_capture]
    rw [if_neg h1, if_neg h2, if_neg h3]

/-- Witness for `conditional_capture_precedence`: the panic-specific flag
set to `1` forces the capture result through. -/
theorem conditional_capture_precedence_witness :
    Backtrace.conditional_capture envPanicOn (some Backtrace.empty)
      CapturePurpose.Panic = some Backtrace.empty :=
  (conditional_capture_precedence envPanicOn (some Backtrace.empty)
      CapturePurpose.Panic).1 (Or.inl (by decide))

/-- Claim C3: in the trimming state machine, the tuple triggering the
BeforeBacktraceInternal→FoundBacktraceInternal transition is discarded
(the loop proceeds on the remaining tuples with the accumulators
untouched); the tuple triggering the FoundBacktraceInternal→InStack
transition is retained, being passed through the grouping step; and in
state InStack a tuple classified as the runtime stack-unwind entry
terminates the loop with only the final flush, so that tuple and all the
following ones are discarded (the right-hand side mentions neither). -/
theorem trim_state_transitions
    (dem : List Char → List Char) (t : RawTuple) (rest : List RawTuple)
    (pending : Option PendingFrame) (rv : List Frame) :
    (t.sym.is_backtrace_internal dem = true →
      trimLoop dem TrimState.BeforeBacktraceInternal pending rv (t :: rest) =
        trimLoop dem TrimState.FoundBacktraceInternal pending rv rest) ∧
    (t.sym.is_backtrace_internal dem = false →
      trimLoop dem TrimState.FoundBacktraceInternal pending rv (t :: rest) =
        trimLoop dem TrimState.InStack (groupStep pending rv t).1
          (groupStep pending rv t).2 rest) ∧
    (t.sym.is_end_of_user_code dem = true →
      trimLoop dem TrimState.InStack pending rv (t :: rest) =
        rv ++ flushPending pending) := by
  refine ⟨fun h => ?_, fun h => ?_, fun h => ?_⟩ <;> simp [trimLoop, h]

/-- Witness for `trim_state_transitions` at concrete tuples. -/
theorem trim_state_transitions_witness :
    trimLoop (fun s => s) TrimState.BeforeBacktraceInternal none []
        [⟨1, AddrHint.Return, symInternal1⟩] =
      trimLoop (fun s => s) TrimState.FoundBacktraceInternal none [] [] ∧
    trimLoop (fun s => s) TrimState.FoundBacktraceInternal none []
        [⟨2, AddrHint.Return, symUserA⟩] =
      trimLoop (fun s => s) TrimState.InStack
        (groupStep none [] ⟨2, AddrHint.Return, symUserA⟩).1
        (groupStep none [] ⟨2, AddrHint.Return, symUserA⟩).2 [] ∧
    trimLoop (fun s => s) TrimState.InStack none []
        [⟨3, AddrHint.Return, symRuntimeStart⟩] = [] ++ flushPending none := by
  refine ⟨?_, ?_, ?_⟩
  · exact (trim_state_transitions (fun s => s) ⟨1, AddrHint.Return, symInternal1⟩
      [] none []).1 (by decide)
  · exact (trim_state_transitions (fun s => s) ⟨2, AddrHint.Return, symUserA⟩
      [] none []).2.1 (by decide)
  · exact (trim_state_transitions (fun s => s) ⟨3, AddrHint.Return, symRuntimeStart⟩
      [] none []).2.2 (by decide)

/-- Claim C1, code-bug evidence: in state InStack with an empty pending
frame, two retained tuples with different `(ip, hint)` make the loop flush
the pending frame built from the first tuple, but the emitted Frame is
built from the second (differing) tuple's ip 2 while carrying the first
tuple's symbol; the output the claim describes, whose first frame carries
the pending frame's own ip 1, is not produced. -/
theorem trim_flush_ip_eval :
    trimLoop (fun s => s) TrimState.InStack none []
        [⟨1, AddrHint.Return, symUserA⟩, ⟨2, AddrHint.Return, symUserB⟩] =
      [ Frame.new_resolved 2 AddrHint.Return [symUserA]
      , Frame.new_resolved 2 AddrHint.Return [symUserB] ] ∧
    trimLoop (fun s => s) TrimState.InStack none []
        [⟨1, AddrHint.Return, symUserA⟩, ⟨2, AddrHint.Return, symUserB⟩] ≠
      [ Frame.new_resolved 1 AddrHint.Return [symUserA]
      , Frame.new_resolved 2 AddrHint.Return [symUserB] ] := by
  exact ⟨by decide, by decide⟩

/-- Claim C2, code-bug evidence: trimming the synthetic six-tuple capture
`[internal1, internal2, user_a, user_b, runtime_start, runtime_other]`
keeps exactly the two user symbols in order, but the first emitted frame
carries user_b's instruction pointer 13 instead of user_a's own 12, so the
output is not `[user_a, user_b]` as frames. -/
theorem trimmed_six_tuple_eval :
    Backtrace.trimmed (fun s => s) (fun _ => []) sixTupleBacktrace =
      ⟨BacktraceRepr.Frames
        [ Frame.new_resolved 13 AddrHint.Return [symUserA]
        , Frame.new_resolved 13 AddrHint.Return [symUserB] ]⟩ ∧
    Backtrace.trimmed (fun s => s) (fun _ => []) sixTupleBacktrace ≠
      ⟨BacktraceRepr.Frames
        [ Frame.new_resolved 12 AddrHint.Return [symUserA]
        , Frame.new_resolved 13 AddrHint.Return [symUserB] ]⟩ := by
  exact ⟨by decide, by decide⟩

/-- Counterexample to claim C4 as stated: the text `hashOnlyText` does not
end in `::` followed by 17 characters (it has no `::` and only 17
characters in total), yet `demangled()` does not leave it untouched — the
whole text is stripped to the empty string. -/
theorem demangled_hash_strip_cex :
    specEndsInSepHash17 hashOnlyText = false ∧
    ((SymbolName.new hashOnlyText).demangled true (fun s => s)).2 = some [] ∧
    hashOnlyText ≠ [] := by
  exact ⟨by decide, by decide, by decide⟩

/-- Claim C4 as amended: `demangled()` strips exactly when the segment
after the rightmost `::` of the demangled text — or the whole text when no
`::` occurs — is exactly 17 characters long and starts with `h`; stripping
removes the `::` and that segment (leaving the prefix before the `::`),
and removes the whole text (leaving the empty string) when no `::` occurs;
otherwise (in particular for a 16- or 18-character final segment, or one
not starting with `h`) the text is untouched.  The conjuncts: `findLastSep`
really is the rightmost separator position (or its absence); the four
strip/no-strip cases; the computation and caching behaviour of the cell;
and `demangled()` is constantly `none` when the backtrace feature is
absent. -/
theorem demangled_strip_characterization :
    (∀ (s : List Char) (i : Nat), findLastSep s = some i →
        isSepAt s i = true ∧ ∀ j, i < j → isSepAt s j = false) ∧
    (∀ (s : List Char), findLastSep s = none → ∀ j, isSepAt s j = false) ∧
    (∀ (s : List Char) (i : Nat), findLastSep s = some i →
        ((s.drop (i + 2)).length = 17 ∧ (s.drop (i + 2)).head? = some 'h' →
          rustDemangleStrip s = s.take i) ∧
        (¬((s.drop (i + 2)).length = 17 ∧ (s.drop (i + 2)).head? = some 'h') →
          rustDemangleStrip s = s)) ∧
    (∀ (s : List Char), findLastSep s = none →
        (s.length = 17 ∧ s.head? = some 'h' → rustDemangleStrip s = []) ∧
        (¬(s.length = 17 ∧ s.head? = some 'h') → rustDemangleStrip s = s)) ∧
    (∀ (dem : List Char → List Char) (bytes : List Char),
        (SymbolName.new bytes).demangled true dem =
          (⟨bytes, some (rustDemangleStrip (dem bytes))⟩,
            some (rustDemangleStrip (dem bytes)))) ∧
    (∀ (dem : List Char → List Char) (sn : SymbolName),
        ((sn.demangled true dem).1).demangled true dem =
          sn.demangled true dem) ∧
    (∀ (dem : List Char → List Char) (sn : SymbolName),
        sn.demangled false dem = (sn, none)) := by
  refine ⟨?_, findLastSep_none_sep, ?_, ?_, ?_, ?_, ?_⟩
  · intro s i h
    exact ⟨findLastSep_sep s i h, findLastSep_last s i h⟩
  · intro s i h
    constructor
    · intro hc
      simp only [rustDemangleStrip, h]
      rw [if_pos hc]
    · intro hc
      simp only [rustDemangleStrip, h]
      rw [if_neg hc]
  · intro s h
    constructor
    · intro hc
      simp only [rustDemangleStrip, h]
      rw [if_pos hc]
    · intro hc
      simp only [rustDemangleStrip, h]
      rw [if_neg hc]
  · intro dem bytes
    rfl
  · intro dem sn
    cases hc : sn.demangledCell with
    | some d => simp [SymbolName.demangled, hc]
    | none => simp [SymbolName.demangled, hc]
  · intro dem sn
    rfl

/-- Witness for `demangled_strip_characterization` at concrete texts: a
17-character `h`-segment after the last `::` is chopped together with the
`::`, a 16-character one is left untouched. -/
theorem demangled_strip_characterization_witness :
    rustDemangleStrip hashSuffixText = String.toList "ab" ∧
    rustDemangleStrip shortSuffixText = shortSuffixText := by
  constructor
  · exact ((demangled_strip_characterization.2.2.1 hashSuffixText 2
      (by decide)).1 ⟨by decide, by decide⟩).trans (by decide)
  · exact (demangled_strip_characterization.2.2.1 shortSuffixText 2
      (by decide)).2 (by decide)

/-- Claim C5: when the demangled text of a symbol contains no `::` at all
and is itself exactly 17 characters beginning with `h`, `demangled()`
returns the empty string — the entire name is truncated away rather than
left untouched. -/
theorem demangled_no_sep_hash_empty
    (dem : List Char → List Char) (bytes : List Char)
    (h1 : noSepIn (dem bytes) = true)
    (h2 : (dem bytes).length = 17)
    (h3 : (dem bytes).head? = some 'h') :
    ((SymbolName.new bytes).demangled true dem).2 = some [] ∧
    dem bytes ≠ [] := by
  have hn : findLastSep (dem bytes) = none := noSepIn_findLastSep (dem bytes) h1
  constructor
  · show some (rustDemangleStrip (dem bytes)) = some []
    simp only [rustDemangleStrip, hn]
    rw [if_pos ⟨h2, h3⟩]
  · intro hE
    rw [hE] at h2
    simp at h2

/-- Witness for `demangled_no_sep_hash_empty` with the external demangler
producing `hashOnlyText`. -/
theorem demangled_no_sep_hash_empty_witness :
    ((SymbolName.new []).demangled true (fun _ => hashOnlyText)).2 = some [] ∧
    hashOnlyText ≠ [] :=
  demangled_no_sep_hash_empty (fun _ => hashOnlyText) []
    (by decide) (by decide) (by decide)

end Defeat
